import Mathlib

/-!
Verification development for the Ledger Aptos hardware-wallet client
(`src/Aptos.ts`).

Shallow embedding conventions:
* device/wire bytes are `Nat` (with the invariant `< 256` where this file
  produces them), byte buffers are `List Nat`;
* JavaScript `undefined` / `NaN`, which arise from out-of-range typed-array
  reads and from arithmetic on them, are modelled by `none : Option Int`;
* `Buffer.subarray` clamping follows the ECMAScript `ToIntegerOrInfinity`
  + clamp semantics (`NaN` becomes `0`, negative indices are relative to
  the end, everything is clamped to `[0, length]`);
* fallible operations return `Except LedgerError`;
* the external transport is modelled as an oracle `Nat → List Nat` giving
  the raw reply (payload plus trailing two status bytes) to the i-th frame
  sent during the operation.
-/

/- Wire constants from the top of `src/Aptos.ts`. -/

def MAX_APDU_LEN : Nat := 255

def P1_NON_CONFIRM : Nat := 0x00

def P1_CONFIRM : Nat := 0x01

def P1_START : Nat := 0x00

def P2_MORE : Nat := 0x80

def P2_LAST : Nat := 0x00

def LEDGER_CLA : Nat := 0x5b

def INS_GET_VERSION : Nat := 0x03

def INS_GET_PUBLIC_KEY : Nat := 0x05

def INS_SIGN_TX : Nat := 0x06

/-- `StatusCodes.OK` from the external `@ledgerhq/errors` package (0x9000). -/
def STATUS_OK : Nat := 0x9000

/-- Errors this client can raise: `RangeError` from `Buffer.writeUInt8` /
`writeUInt32BE` validation in `serializePath` (the spec's `EncodingError`),
and the `Error` thrown by `throwOnFailure` carrying the device status code
(the spec's `DeviceError{status}`).  The source contains no further error
paths, in particular no `ProtocolError`. -/
inductive LedgerError where
  | encodingError : LedgerError
  | deviceError : Nat → LedgerError
deriving DecidableEq, Repr

/-- Decidable equality for `Except` results, for concrete evaluation. -/
instance {e a : Type} [DecidableEq e] [DecidableEq a] : DecidableEq (Except e a) := fun x y =>
  match x, y with
  | .ok u, .ok v =>
      if h : u = v then .isTrue (by rw [h]) else .isFalse (by simp [h])
  | .error u, .error v =>
      if h : u = v then .isTrue (by rw [h]) else .isFalse (by simp [h])
  | .ok _, .error _ => .isFalse (by simp)
  | .error _, .ok _ => .isFalse (by simp)

/-- One APDU frame as passed to `transport.send`. -/
structure Frame where
  cla : Nat
  ins : Nat
  p1 : Nat
  p2 : Nat
  data : List Nat
deriving DecidableEq, Repr

/-- Default frame (for `List.getD` access). -/
def frame0 : Frame := ⟨0, 0, 0, 0, []⟩

/- JavaScript buffer-access helpers. -/

/-- ECMAScript index conversion used by `subarray`: `none` (NaN) becomes 0,
negative values count from the end, and the result is clamped to
`[0, len]`. -/
def jsClamp (len : Nat) (v : Option Int) : Nat :=
  match v with
  | none => 0
  | some i => if i < 0 then len - (-i).toNat else min i.toNat len

/-- `Buffer.subarray(s, e)` (start/end may be `NaN`, modelled as `none`). -/
def jsSub (b : List Nat) (s e : Option Int) : List Nat :=
  (b.take (jsClamp b.length e)).drop (jsClamp b.length s)

/-- `b[i]` on a Node `Buffer`: `undefined` (`none`) when the index is
`NaN`, negative or out of range, otherwise the byte. -/
def jsIndex (b : List Nat) (i : Option Int) : Option Int :=
  match i with
  | none => none
  | some i =>
      if 0 ≤ i ∧ i.toNat < b.length then some ((b.getD i.toNat 0 : Nat) : Int)
      else none

/-- JS `+` where either side may be `undefined`/`NaN` (then the result is
`NaN`). -/
def optAdd : Option Int → Option Int → Option Int
  | some a, some b => some (a + b)
  | _, _ => none

/-- JS `-` where either side may be `undefined`/`NaN`. -/
def optSub : Option Int → Option Int → Option Int
  | some a, some b => some (a - b)
  | _, _ => none

/- Response status handling (`throwOnFailure`, lines 224-230, and the
`subarray(0, length - 2)` strip in `sendToDevice`, line 193).  The
transport guarantees every reply has at least the two status bytes. -/

/-- `reply.readUInt16BE(reply.length - 2)`: the trailing two bytes read
big-endian. -/
def statusOf (reply : List Nat) : Nat :=
  reply.getD (reply.length - 2) 0 * 256 + reply.getD (reply.length - 1) 0

/-- `reply.subarray(0, reply.length - 2)`: the reply without its status
trailer. -/
def stripStatus (reply : List Nat) : List Nat :=
  reply.take (reply.length - 2)

/-- `throwOnFailure`: throws (as `deviceError status`) unless the status
equals `StatusCodes.OK`. -/
def throwOnFailure (reply : List Nat) : Except LedgerError Unit :=
  if statusOf reply = STATUS_OK then .ok () else .error (.deviceError (statusOf reply))

/- Framing (`sendToDevice`, lines 155-194).  The `while` loop sends full
255-byte frames with `p2 = P2_MORE` and a post-incremented `p1`; the final
`transport.send` outside the loop carries the remaining bytes with the
caller's `p1`/`p2`.  (The `if payload.length > MAX_APDU_LEN` guard around
the loop is the loop condition itself, so the recursion below is exactly
the loop.) -/

/-- The sequence of frames `sendToDevice` sends for a payload, in order. -/
def chunkFrames (ins p1 p2 : Nat) (payload : List Nat) : List Frame :=
  if h : MAX_APDU_LEN < payload.length then
    ⟨LEDGER_CLA, ins, p1, P2_MORE, payload.take MAX_APDU_LEN⟩ ::
      chunkFrames ins (p1 + 1) p2 (payload.drop MAX_APDU_LEN)
  else
    [⟨LEDGER_CLA, ins, p1, p2, payload⟩]
termination_by payload.length
decreasing_by
  simp only [List.length_drop, MAX_APDU_LEN] at h ⊢
  omega

/-- `sendToDevice` run against a reply oracle: `device i` is the raw reply
to the i-th frame of the whole operation and `k` the index of the next
frame to send.  Returns the frames actually sent (in order) and either the
final reply body (status stripped) or the first error.  Each frame's reply
is status-checked (`throwOnFailure`) before any further frame is sent;
intermediate reply bodies are discarded, exactly as in the source. -/
def sendToDeviceRun (device : Nat → List Nat) (k ins p1 p2 : Nat)
    (payload : List Nat) : List Frame × Except LedgerError (List Nat) :=
  if h : MAX_APDU_LEN < payload.length then
    if statusOf (device k) = STATUS_OK then
      (⟨LEDGER_CLA, ins, p1, P2_MORE, payload.take MAX_APDU_LEN⟩ ::
         (sendToDeviceRun device (k + 1) ins (p1 + 1) p2 (payload.drop MAX_APDU_LEN)).1,
       (sendToDeviceRun device (k + 1) ins (p1 + 1) p2 (payload.drop MAX_APDU_LEN)).2)
    else
      ([⟨LEDGER_CLA, ins, p1, P2_MORE, payload.take MAX_APDU_LEN⟩],
       .error (.deviceError (statusOf (device k))))
  else
    if statusOf (device k) = STATUS_OK then
      ([⟨LEDGER_CLA, ins, p1, p2, payload⟩], .ok (stripStatus (device k)))
    else
      ([⟨LEDGER_CLA, ins, p1, p2, payload⟩], .error (.deviceError (statusOf (device k))))
termination_by payload.length
decreasing_by
  simp only [List.length_drop, MAX_APDU_LEN] at h ⊢
  omega

/- Path serialization (`serializePath`, lines 208-215).  `Buffer.writeUInt8`
validates its value is in `[0, 255]` and `Buffer.writeUInt32BE` validates
`[0, 0xffffffff]`; both throw `RangeError` otherwise. -/

/-- One index as 4 bytes, most significant first (`writeUInt32BE`). -/
def u32be (n : Nat) : List Nat :=
  [n / 2 ^ 24 % 256, n / 2 ^ 16 % 256, n / 2 ^ 8 % 256, n % 256]

/-- `serializePath`: leading element-count byte, then each index big-endian. -/
def serializePath (path : List Nat) : Except LedgerError (List Nat) :=
  if 255 < path.length then .error .encodingError
  else if path.any (fun n => 2 ^ 32 ≤ n) then .error .encodingError
  else .ok ([path.length] ++ (path.map u32be).flatten)

/- SHA3-256 (the `sha3_256` of the external `@noble/hashes/sha3` package,
used by `publicKeyToAddress`, lines 217-222).  Full Keccak-f[1600]
implementation: the state is the list of 25 lanes (64-bit words as `Nat`,
index `x + 5 * y`), rate 136 bytes, SHA-3 padding `0x06 … 0x80`,
digest = first 32 bytes of the squeezed state (little-endian lanes). -/

/-- Rotate a 64-bit word left by `n`. -/
def rotl64 (x n : Nat) : Nat :=
  ((x % 2 ^ 64) * 2 ^ (n % 64)) % 2 ^ 64 + (x % 2 ^ 64) / 2 ^ (64 - n % 64)

/-- 64-bit bitwise complement. -/
def not64 (x : Nat) : Nat :=
  (x % 2 ^ 64) ^^^ (2 ^ 64 - 1)

/-- Keccak ρ rotation offsets, indexed `x + 5 * y`. -/
def rhoOffsets : List Nat :=
  [0, 1, 62, 28, 27,
   36, 44, 6, 55, 20,
   3, 10, 43] ++
  [25, 39,
   41, 45, 15, 21, 8,
   18, 2, 61, 56, 14]

/-- Keccak round constants (decimal form of the standard table). -/
def keccakRC : List Nat :=
  [1, 32898, 9223372036854808714,
   9223372039002292224, 32907, 2147483649,
   9223372039002292353, 9223372036854808585, 138,
   136, 2147516425, 2147483658,
   2147516555, 9223372036854775947, 9223372036854808713,
   9223372036854808579, 9223372036854808578, 9223372036854775936,
   32778, 9223372039002259466, 9223372039002292353,
   9223372036854808704, 2147483649, 9223372039002292232]

/-- θ step. -/
def keccakTheta (s : List Nat) : List Nat :=
  let c := (List.range 5).map (fun x =>
    s.getD x 0 ^^^ s.getD (x + 5) 0 ^^^ s.getD (x + 10) 0 ^^^
      s.getD (x + 15) 0 ^^^ s.getD (x + 20) 0)
  let d := (List.range 5).map (fun x =>
    c.getD ((x + 4) % 5) 0 ^^^ rotl64 (c.getD ((x + 1) % 5) 0) 1)
  (List.range 25).map (fun i => s.getD i 0 ^^^ d.getD (i % 5) 0)

/-- ρ and π steps combined: output lane `(x', y')` is the rotated input
lane `(x' + 3 y', x')`. -/
def keccakRhoPi (s : List Nat) : List Nat :=
  (List.range 25).map (fun j =>
    let x := (j % 5 + 3 * (j / 5)) % 5
    let y := j % 5
    rotl64 (s.getD (x + 5 * y) 0) (rhoOffsets.getD (x + 5 * y) 0))

/-- χ step. -/
def keccakChi (s : List Nat) : List Nat :=
  (List.range 25).map (fun j =>
    let x := j % 5
    let y := j / 5
    s.getD j 0 ^^^ (not64 (s.getD ((x + 1) % 5 + 5 * y) 0) &&& s.getD ((x + 2) % 5 + 5 * y) 0))

/-- ι step. -/
def keccakIota (rc : Nat) (s : List Nat) : List Nat :=
  (List.range 25).map (fun j => if j = 0 then s.getD 0 0 ^^^ rc else s.getD j 0)

/-- The Keccak-f[1600] permutation (24 rounds). -/
def keccakF (s : List Nat) : List Nat :=
  keccakRC.foldl (fun st rc => keccakIota rc (keccakChi (keccakRhoPi (keccakTheta st)))) s

/-- Lane `i` of a (≤ 136-byte) block, little-endian. -/
def laneOf (block : List Nat) (i : Nat) : Nat :=
  (List.range 8).foldr (fun j acc => acc * 256 + block.getD (8 * i + j) 0) 0

/-- XOR one padded block into the state. -/
def xorBlock (s block : List Nat) : List Nat :=
  (List.range 25).map (fun i => s.getD i 0 ^^^ laneOf block i)

/-- Absorb a list of blocks. -/
def absorbBlocks (s : List Nat) : List (List Nat) → List Nat
  | [] => s
  | b :: bs => absorbBlocks (keccakF (xorBlock s b)) bs

/-- Split a padded message (whose length is a positive multiple of 136)
into its 136-byte blocks. -/
def toBlocks (l : List Nat) : List (List Nat) :=
  (List.range (l.length / 136)).map (fun i => (l.drop (136 * i)).take 136)

/-- SHA-3 padding (`0x06`, zeros, `0x80`; a single `0x86` when only one
byte of room remains). -/
def sha3Pad (m : List Nat) : List Nat :=
  let padLen := 136 - m.length % 136
  if padLen = 1 then m ++ [0x86]
  else m ++ [0x06] ++ List.replicate (padLen - 2) 0 ++ [0x80]

/-- First 32 bytes of the squeezed state (little-endian lanes). -/
def stateBytes32 (s : List Nat) : List Nat :=
  ((List.range 4).map (fun i => (List.range 8).map (fun j => s.getD i 0 / 2 ^ (8 * j) % 256))).flatten

/-- SHA3-256 of a byte sequence. -/
def sha3_256 (m : List Nat) : List Nat :=
  stateBytes32 (absorbBlocks (List.replicate 25 0) (toBlocks (sha3Pad m)))

/- Hash-object API of `@noble/hashes` as used by `publicKeyToAddress`:
`create` / `update` / `digest`, where the digest is the hash of the
concatenation of all updated byte chunks. -/

/-- Streaming hash context (accumulated message). -/
structure Sha3Ctx where
  acc : List Nat
deriving DecidableEq, Repr

/-- `sha3Hash.create()`. -/
def sha3Create : Sha3Ctx := ⟨[]⟩

/-- `hash.update(chunk)`. -/
def sha3Update (c : Sha3Ctx) (m : List Nat) : Sha3Ctx := ⟨c.acc ++ m⟩

/-- `hash.digest()`. -/
def sha3Digest (c : Sha3Ctx) : List Nat := sha3_256 c.acc

/-- `publicKeyToAddress` (lines 217-222): update with the key bytes, then
with the string `"\x00"` (UTF-8: the single byte 0), and digest. -/
def publicKeyToAddress (pubKey : List Nat) : List Nat :=
  sha3Digest (sha3Update (sha3Update sha3Create pubKey) [0])

/- Hex rendering (`Buffer.toString("hex")`, lowercase). -/

/-- The sixteen lowercase hex digits. -/
def hexAlphabet : List Char := "0123456789abcdef".data

/-- Hex digit for a value below 16. -/
def hexDigit (n : Nat) : Char := hexAlphabet.getD n '0'

/-- Two hex characters for one byte. -/
def byteHex (b : Nat) : List Char := [hexDigit (b / 16 % 16), hexDigit (b % 16)]

/-- Characters of the hex rendering of a byte sequence. -/
def hexChars (bs : List Nat) : List Char := (bs.map byteHex).flatten

/-- `buffer.toString("hex")`. -/
def hexString (bs : List Nat) : String := String.mk (hexChars bs)

/- Path-string handling (`pathToBuffer`, lines 196-206) and the external
`bip32-path` package it calls. The JavaScript string operations are
modelled at the character-list level. -/

/-- JS `String.prototype.endsWith` (character-level). -/
def strEndsWith (s t : String) : Bool :=
  s.data.drop (s.data.length - t.data.length) == t.data

/-- The per-component map of `pathToBuffer`: append a hardened marker
unless the component already ends in an apostrophe or `h`. -/
def promote (v : String) : String :=
  if strEndsWith v "\x27" || strEndsWith v "h" then v else v ++ "\x27"

/-- Numeric value of a digit string (`parseInt` on a matched `\d+`). -/
def digitsVal (l : List Char) : Nat :=
  l.foldl (fun acc c => acc * 10 + (c.toNat - 48)) 0

/-- Parse a nonempty all-digit character list. -/
def digitsToNat (l : List Char) : Option Nat :=
  if l.isEmpty then none
  else if l.all Char.isDigit then some (digitsVal l) else none

/-- Models one component of the external `bip32-path` parser
(`BIPPath.fromString(...).toPathArray()`): `"N\x27"` or `"Nh"` parse as the
hardened index `N + 2^31`, a bare `"N"` as `N`; anything else is a parse
error. -/
def parseComponent (v : String) : Option Nat :=
  if strEndsWith v "\x27" || strEndsWith v "h" then
    (digitsToNat v.data.dropLast).map (fun n => n + 2 ^ 31)
  else digitsToNat v.data

/-- JS `string.split(sep)` on character lists (returns `[[]]` for the
empty string, like JavaScript). -/
def splitChars (sep : Char) : List Char → List (List Char)
  | [] => [[]]
  | c :: cs =>
      let r := splitChars sep cs
      if c = sep then [] :: r
      else
        match r with
        | [] => [[c]]
        | h :: t => (c :: h) :: t

/-- `pathToBuffer`'s component pipeline after splitting: drop `"m"`
components, promote the rest to hardened form, parse each through
`bip32-path`, and serialize. -/
def encodeParts (parts : List String) : Except LedgerError (List Nat) :=
  match ((parts.filter (fun v => v ≠ "m")).map promote).mapM parseComponent with
  | none => .error .encodingError
  | some nums => serializePath nums

/-- `pathToBuffer` (lines 196-206). -/
def pathToBuffer (originalPath : String) : Except LedgerError (List Nat) :=
  encodeParts ((splitChars '/' originalPath.data).map String.mk)

/- The response parsing of `getAddress` (lines 103-113), with the source's
cursor arithmetic made explicit.  `offset` starts at 1; `++offset` and
`offset += pubKeyLen` evaluate left to right, so the key is read from
position 2 and the chain-code length from position `offset` after the key. -/

/-- `getAddress` response-body parsing: returns `(publicKey, chainCode)`. -/
def parseGetAddress (body : List Nat) : List Nat × List Nat :=
  let pubKeyLen : Option Int :=
    optSub (jsIndex (jsSub body (some 0) (some 1)) (some 0)) (some 1)
  let off2 : Option Int := some 2
  let off3 : Option Int := optAdd off2 pubKeyLen
  let pubKeyBuffer := jsSub body off2 off3
  let off4 : Option Int := optAdd off3 (some 1)
  let chainCodeLen : Option Int := jsIndex (jsSub body off3 off4) (some 0)
  let chainCodeBuffer := jsSub body off4 (optAdd off4 chainCodeLen)
  (pubKeyBuffer, chainCodeBuffer)

/-- `signTransaction`'s final-response parsing (lines 149-151):
`signatureLen = responseBuffer[0]`, signature = `subarray(1, 1 + len)`. -/
def parseSignature (body : List Nat) : List Nat :=
  jsSub body (some 1) (optAdd (some 1) (jsIndex body (some 0)))

/-- The result record of `getAddress`. -/
structure AddressData where
  publicKey : List Nat
  chainCode : List Nat
  address : String
deriving DecidableEq, Repr

/-- `getAddress` response handling for one raw reply (status check, strip,
parse, address derivation, lines 102-122). -/
def getAddressFromReply (reply : List Nat) : Except LedgerError AddressData :=
  match throwOnFailure reply with
  | .error e => .error e
  | .ok _ =>
      let body := stripStatus reply
      let pc := parseGetAddress body
      .ok ⟨pc.1, pc.2, "0x" ++ hexString (publicKeyToAddress pc.1)⟩

/-- `getAddress` (lines 89-123) against a reply oracle. -/
def getAddressRun (device : Nat → List Nat) (path : String) (display : Bool) :
    List Frame × Except LedgerError AddressData :=
  match pathToBuffer path with
  | .error e => ([], .error e)
  | .ok pathBuf =>
      let r := sendToDeviceRun device 0 INS_GET_PUBLIC_KEY
        (if display then P1_CONFIRM else P1_NON_CONFIRM) P2_LAST pathBuf
      match r.2 with
      | .error e => (r.1, .error e)
      | .ok body =>
          let pc := parseGetAddress body
          (r.1, .ok ⟨pc.1, pc.2, "0x" ++ hexString (publicKeyToAddress pc.1)⟩)

/-- `signTransaction` (lines 136-152) against a reply oracle: one
`sendToDevice` exchange carrying the encoded path (`p1 = P1_START`,
`p2 = P2_MORE`, body of the reply discarded), then one carrying the
transaction bytes starting at `p1 = 1` with `p2 = P2_LAST`; the final
reply body is parsed for the signature. -/
def signTransactionRun (device : Nat → List Nat) (path : String) (tx : List Nat) :
    List Frame × Except LedgerError (List Nat) :=
  match pathToBuffer path with
  | .error e => ([], .error e)
  | .ok pathBuf =>
      let r1 := sendToDeviceRun device 0 INS_SIGN_TX P1_START P2_MORE pathBuf
      match r1.2 with
      | .error e => (r1.1, .error e)
      | .ok _ =>
          let r2 := sendToDeviceRun device r1.1.length INS_SIGN_TX 1 P2_LAST tx
          match r2.2 with
          | .error e => (r1.1 ++ r2.1, .error e)
          | .ok body => (r1.1 ++ r2.1, .ok (parseSignature body))

/- Helper lemmas about the framing loop. -/

theorem chunkFrames_pos (ins p1 p2 : Nat) (payload : List Nat)
    (h : MAX_APDU_LEN < payload.length) :
    chunkFrames ins p1 p2 payload =
      ⟨LEDGER_CLA, ins, p1, P2_MORE, payload.take MAX_APDU_LEN⟩ ::
        chunkFrames ins (p1 + 1) p2 (payload.drop MAX_APDU_LEN) := by
  rw [chunkFrames, dif_pos h]

theorem chunkFrames_fin (ins p1 p2 : Nat) (payload : List Nat)
    (h : ¬ MAX_APDU_LEN < payload.length) :
    chunkFrames ins p1 p2 payload = [⟨LEDGER_CLA, ins, p1, p2, payload⟩] := by
  rw [chunkFrames, dif_neg h]

theorem chunkFrames_ne_nil (ins p1 p2 : Nat) (payload : List Nat) :
    chunkFrames ins p1 p2 payload ≠ [] := by
  rw [chunkFrames]
  split <;> simp

theorem chunkFrames_length (ins p1 p2 : Nat) (payload : List Nat) :
    (chunkFrames ins p1 p2 payload).length = (max payload.length 1 + 254) / 255 := by
  by_cases h : MAX_APDU_LEN < payload.length
  · rw [chunkFrames_pos ins p1 p2 payload h]
    have ih := chunkFrames_length ins (p1 + 1) p2 (payload.drop MAX_APDU_LEN)
    simp only [List.length_cons, ih, List.length_drop]
    simp only [MAX_APDU_LEN] at h ⊢
    omega
  · rw [chunkFrames_fin ins p1 p2 payload h]
    simp only [MAX_APDU_LEN] at h
    simp only [List.length_cons, List.length_nil]
    omega
termination_by payload.length
decreasing_by
  simp only [List.length_drop, MAX_APDU_LEN] at h ⊢
  omega

theorem chunkFrames_flatten (ins p1 p2 : Nat) (payload : List Nat) :
    ((chunkFrames ins p1 p2 payload).map Frame.data).flatten = payload := by
  by_cases h : MAX_APDU_LEN < payload.length
  · rw [chunkFrames_pos ins p1 p2 payload h]
    have ih := chunkFrames_flatten ins (p1 + 1) p2 (payload.drop MAX_APDU_LEN)
    simp [ih]
  · rw [chunkFrames_fin ins p1 p2 payload h]
    simp
termination_by payload.length
decreasing_by
  simp only [List.length_drop, MAX_APDU_LEN] at h ⊢
  omega

theorem chunkFrames_getD (ins p1 p2 : Nat) (payload : List Nat) (i : Nat)
    (hi : i + 1 < (chunkFrames ins p1 p2 payload).length) :
    (chunkFrames ins p1 p2 payload).getD i frame0 =
      ⟨LEDGER_CLA, ins, p1 + i, P2_MORE, (payload.drop (255 * i)).take 255⟩ := by
  by_cases h : MAX_APDU_LEN < payload.length
  · rw [chunkFrames_pos ins p1 p2 payload h] at hi ⊢
    match i with
    | 0 => simp [MAX_APDU_LEN]
    | j + 1 =>
      have hj : j + 1 < (chunkFrames ins (p1 + 1) p2 (payload.drop MAX_APDU_LEN)).length := by
        simpa using hi
      have ih := chunkFrames_getD ins (p1 + 1) p2 (payload.drop MAX_APDU_LEN) j hj
      rw [List.getD_cons_succ, ih]
      simp only [MAX_APDU_LEN, List.drop_drop, Frame.mk.injEq, true_and, and_true]
      refine ⟨by omega, ?_⟩
      have hx : 255 + 255 * j = 255 * (j + 1) := by ring
      rw [hx]
  · rw [chunkFrames_fin ins p1 p2 payload h] at hi
    simp at hi
termination_by payload.length
decreasing_by
  simp only [List.length_drop, MAX_APDU_LEN] at h ⊢
  omega

theorem chunkFrames_lastFrame (ins p1 p2 : Nat) (payload : List Nat) :
    (chunkFrames ins p1 p2 payload).getD ((chunkFrames ins p1 p2 payload).length - 1) frame0 =
      ⟨LEDGER_CLA, ins, p1 + ((chunkFrames ins p1 p2 payload).length - 1), p2,
        payload.drop (255 * ((chunkFrames ins p1 p2 payload).length - 1))⟩ := by
  by_cases h : MAX_APDU_LEN < payload.length
  · rw [chunkFrames_pos ins p1 p2 payload h]
    have ih := chunkFrames_lastFrame ins (p1 + 1) p2 (payload.drop MAX_APDU_LEN)
    have hne : chunkFrames ins (p1 + 1) p2 (payload.drop MAX_APDU_LEN) ≠ [] :=
      chunkFrames_ne_nil ins (p1 + 1) p2 (payload.drop MAX_APDU_LEN)
    have hpos : 0 < (chunkFrames ins (p1 + 1) p2 (payload.drop MAX_APDU_LEN)).length :=
      List.length_pos.mpr hne
    set L := (chunkFrames ins (p1 + 1) p2 (payload.drop MAX_APDU_LEN)).length with hL
    have hcons : (⟨LEDGER_CLA, ins, p1, P2_MORE, payload.take MAX_APDU_LEN⟩ ::
        chunkFrames ins (p1 + 1) p2 (payload.drop MAX_APDU_LEN)).length - 1 = (L - 1) + 1 := by
      simp only [List.length_cons]
      omega
    rw [hcons, List.getD_cons_succ, ih]
    simp only [MAX_APDU_LEN, List.drop_drop, Frame.mk.injEq, true_and, and_true,
      List.length_cons]
    refine ⟨by omega, ?_⟩
    have hx : 255 + 255 * (L - 1) = 255 * (L - 1 + 1) := by ring
    rw [hx]
  · rw [chunkFrames_fin ins p1 p2 payload h]
    simp
termination_by payload.length
decreasing_by
  simp only [List.length_drop, MAX_APDU_LEN] at h ⊢
  omega

/-- C3: for every payload, `sendToDevice` issues exactly
`ceil (max n 1 / 255)` frames, each carrying at most 255 bytes; every
non-final frame carries `p2 = P2_MORE` (0x80) and a full 255-byte slice
with `p1` increased by one per frame from the caller's `p1`; the final
frame carries the caller's `p2` and the remaining bytes; the frame
payloads concatenate to the original payload; an empty payload still
produces exactly one (empty) frame. -/
theorem claim_C3_sendToDevice_framing (ins p1 p2 : Nat) (payload : List Nat) :
    (chunkFrames ins p1 p2 payload).length = (max payload.length 1 + 254) / 255 ∧
    (∀ i, i < (chunkFrames ins p1 p2 payload).length →
      ((chunkFrames ins p1 p2 payload).getD i frame0).data.length ≤ 255) ∧
    (∀ i, i + 1 < (chunkFrames ins p1 p2 payload).length →
      (chunkFrames ins p1 p2 payload).getD i frame0 =
        ⟨LEDGER_CLA, ins, p1 + i, P2_MORE, (payload.drop (255 * i)).take 255⟩ ∧
      ((chunkFrames ins p1 p2 payload).getD i frame0).data.length = 255) ∧
    (chunkFrames ins p1 p2 payload).getD ((chunkFrames ins p1 p2 payload).length - 1) frame0 =
      ⟨LEDGER_CLA, ins, p1 + ((chunkFrames ins p1 p2 payload).length - 1), p2,
        payload.drop (255 * ((chunkFrames ins p1 p2 payload).length - 1))⟩ ∧
    ((chunkFrames ins p1 p2 payload).map Frame.data).flatten = payload ∧
    (payload = [] → chunkFrames ins p1 p2 payload = [⟨LEDGER_CLA, ins, p1, p2, []⟩]) := by
  have hlen := chunkFrames_length ins p1 p2 payload
  have hlast := chunkFrames_lastFrame ins p1 p2 payload
  refine ⟨hlen, ?_, ?_, hlast, chunkFrames_flatten ins p1 p2 payload, ?_⟩
  · intro i hi
    by_cases hmid : i + 1 < (chunkFrames ins p1 p2 payload).length
    · rw [chunkFrames_getD ins p1 p2 payload i hmid]
      simp
    · have hieq : i = (chunkFrames ins p1 p2 payload).length - 1 := by omega
      rw [hieq, hlast]
      simp only [List.length_drop]
      rw [hlen] at *
      omega
  · intro i hmid
    have hgd := chunkFrames_getD ins p1 p2 payload i hmid
    refine ⟨hgd, ?_⟩
    rw [hgd]
    simp only [List.length_take, List.length_drop]
    rw [hlen] at hmid
    omega
  · intro hnil
    subst hnil
    rw [chunkFrames_fin ins p1 p2 [] (by simp [MAX_APDU_LEN])]

/-- Witness for C3: a concrete 300-byte payload is framed as a full
255-byte `P2_MORE` frame followed by a 45-byte final frame. -/
theorem claim_C3_witness :
    (chunkFrames 6 1 0 (List.replicate 300 7)).length = 2 ∧
    ((chunkFrames 6 1 0 (List.replicate 300 7)).getD 0 frame0).p2 = 0x80 ∧
    ((chunkFrames 6 1 0 (List.replicate 300 7)).getD 1 frame0).p2 = 0 := by
  obtain ⟨hlen, -, hmid, hlast, -, -⟩ := claim_C3_sendToDevice_framing 6 1 0 (List.replicate 300 7)
  have h2 : (chunkFrames 6 1 0 (List.replicate 300 7)).length = 2 := by
    rw [hlen]
    norm_num
  refine ⟨h2, ?_, ?_⟩
  · rw [(hmid 0 (by rw [h2]; norm_num)).1]
    rfl
  · rw [h2] at hlast
    norm_num at hlast
    simp only [List.getD, List.get?_eq_getElem?]
    rw [hlast]

/- Helper lemmas about the frame-by-frame exchange. -/

theorem sendRun_pos_ok (device : Nat → List Nat) (k ins p1 p2 : Nat) (payload : List Nat)
    (h : MAX_APDU_LEN < payload.length) (hs : statusOf (device k) = STATUS_OK) :
    sendToDeviceRun device k ins p1 p2 payload =
      (⟨LEDGER_CLA, ins, p1, P2_MORE, payload.take MAX_APDU_LEN⟩ ::
         (sendToDeviceRun device (k + 1) ins (p1 + 1) p2 (payload.drop MAX_APDU_LEN)).1,
       (sendToDeviceRun device (k + 1) ins (p1 + 1) p2 (payload.drop MAX_APDU_LEN)).2) := by
  rw [sendToDeviceRun, dif_pos h, if_pos hs]

theorem sendRun_pos_bad (device : Nat → List Nat) (k ins p1 p2 : Nat) (payload : List Nat)
    (h : MAX_APDU_LEN < payload.length) (hs : ¬ statusOf (device k) = STATUS_OK) :
    sendToDeviceRun device k ins p1 p2 payload =
      ([⟨LEDGER_CLA, ins, p1, P2_MORE, payload.take MAX_APDU_LEN⟩],
       .error (.deviceError (statusOf (device k)))) := by
  rw [sendToDeviceRun, dif_pos h, if_neg hs]

theorem sendRun_fin_ok (device : Nat → List Nat) (k ins p1 p2 : Nat) (payload : List Nat)
    (h : ¬ MAX_APDU_LEN < payload.length) (hs : statusOf (device k) = STATUS_OK) :
    sendToDeviceRun device k ins p1 p2 payload =
      ([⟨LEDGER_CLA, ins, p1, p2, payload⟩], .ok (stripStatus (device k))) := by
  rw [sendToDeviceRun, dif_neg h, if_pos hs]

theorem sendRun_fin_bad (device : Nat → List Nat) (k ins p1 p2 : Nat) (payload : List Nat)
    (h : ¬ MAX_APDU_LEN < payload.length) (hs : ¬ statusOf (device k) = STATUS_OK) :
    sendToDeviceRun device k ins p1 p2 payload =
      ([⟨LEDGER_CLA, ins, p1, p2, payload⟩], .error (.deviceError (statusOf (device k)))) := by
  rw [sendToDeviceRun, dif_neg h, if_neg hs]

/-- The frames actually sent are an initial segment of the full frame
sequence. -/
theorem sendRun_sent_take (device : Nat → List Nat) (k ins p1 p2 : Nat) (payload : List Nat) :
    (sendToDeviceRun device k ins p1 p2 payload).1 =
      (chunkFrames ins p1 p2 payload).take (sendToDeviceRun device k ins p1 p2 payload).1.length := by
  by_cases h : MAX_APDU_LEN < payload.length
  · by_cases hs : statusOf (device k) = STATUS_OK
    · rw [sendRun_pos_ok device k ins p1 p2 payload h hs, chunkFrames_pos ins p1 p2 payload h]
      simp only [List.length_cons, List.take_succ_cons, List.cons.injEq, true_and]
      exact sendRun_sent_take device (k + 1) ins (p1 + 1) p2 (payload.drop MAX_APDU_LEN)
    · rw [sendRun_pos_bad device k ins p1 p2 payload h hs, chunkFrames_pos ins p1 p2 payload h]
      simp
  · by_cases hs : statusOf (device k) = STATUS_OK
    · rw [sendRun_fin_ok device k ins p1 p2 payload h hs, chunkFrames_fin ins p1 p2 payload h]
      simp
    · rw [sendRun_fin_bad device k ins p1 p2 payload h hs, chunkFrames_fin ins p1 p2 payload h]
      simp
termination_by payload.length
decreasing_by
  simp only [List.length_drop, MAX_APDU_LEN] at h ⊢
  omega

/-- At least one frame is always sent. -/
theorem sendRun_sent_ne_nil (device : Nat → List Nat) (k ins p1 p2 : Nat) (payload : List Nat) :
    (sendToDeviceRun device k ins p1 p2 payload).1 ≠ [] := by
  rw [sendToDeviceRun]
  split <;> split <;> simp

/-- Every sent frame that was followed by another frame had received a
success status: the reply status is checked before the next frame goes
out, and a non-success status stops the exchange at once. -/
theorem sendRun_statuses (device : Nat → List Nat) (k ins p1 p2 : Nat) (payload : List Nat) :
    ∀ i, i + 1 < (sendToDeviceRun device k ins p1 p2 payload).1.length →
      statusOf (device (k + i)) = STATUS_OK := by
  by_cases h : MAX_APDU_LEN < payload.length
  · by_cases hs : statusOf (device k) = STATUS_OK
    · rw [sendRun_pos_ok device k ins p1 p2 payload h hs]
      intro i hi
      match i with
      | 0 => simpa using hs
      | j + 1 =>
        have ih := sendRun_statuses device (k + 1) ins (p1 + 1) p2 (payload.drop MAX_APDU_LEN) j
          (by simpa using hi)
        have hk : k + (j + 1) = k + 1 + j := by omega
        rw [hk]
        exact ih
    · rw [sendRun_pos_bad device k ins p1 p2 payload h hs]
      intro i hi
      simp at hi
  · by_cases hs : statusOf (device k) = STATUS_OK
    · rw [sendRun_fin_ok device k ins p1 p2 payload h hs]
      intro i hi
      simp at hi
    · rw [sendRun_fin_bad device k ins p1 p2 payload h hs]
      intro i hi
      simp at hi
termination_by payload.length
decreasing_by
  simp only [List.length_drop, MAX_APDU_LEN] at h ⊢
  omega

/-- The exchange succeeds exactly when every frame of the full sequence
got a success status. -/
theorem sendRun_isOk_iff (device : Nat → List Nat) (k ins p1 p2 : Nat) (payload : List Nat) :
    (sendToDeviceRun device k ins p1 p2 payload).2.isOk = true ↔
      ∀ i, i < (chunkFrames ins p1 p2 payload).length → statusOf (device (k + i)) = STATUS_OK := by
  by_cases h : MAX_APDU_LEN < payload.length
  · by_cases hs : statusOf (device k) = STATUS_OK
    · rw [sendRun_pos_ok device k ins p1 p2 payload h hs, chunkFrames_pos ins p1 p2 payload h]
      have ih := sendRun_isOk_iff device (k + 1) ins (p1 + 1) p2 (payload.drop MAX_APDU_LEN)
      simp only [List.length_cons]
      constructor
      · intro hok i hi
        match i with
        | 0 => simpa using hs
        | j + 1 =>
          have hj := (ih.mp hok) j (by omega)
          have hk : k + (j + 1) = k + 1 + j := by omega
          rw [hk]
          exact hj
      · intro hall
        refine ih.mpr ?_
        intro j hj
        have := hall (j + 1) (by omega)
        have hk : k + (j + 1) = k + 1 + j := by omega
        rw [hk] at this
        exact this
    · rw [sendRun_pos_bad device k ins p1 p2 payload h hs, chunkFrames_pos ins p1 p2 payload h]
      simp only [Except.isOk, Except.toBool]
      constructor
      · intro hfalse
        exact absurd hfalse (by simp)
      · intro hall
        exact absurd (by simpa using hall 0 (by simp)) hs
  · by_cases hs : statusOf (device k) = STATUS_OK
    · rw [sendRun_fin_ok device k ins p1 p2 payload h hs, chunkFrames_fin ins p1 p2 payload h]
      simp only [Except.isOk, Except.toBool, List.length_cons, List.length_nil]
      constructor
      · intro _ i hi
        have hi0 : i = 0 := by omega
        subst hi0
        simpa using hs
      · intro _
        trivial
    · rw [sendRun_fin_bad device k ins p1 p2 payload h hs, chunkFrames_fin ins p1 p2 payload h]
      simp only [Except.isOk, Except.toBool, List.length_cons, List.length_nil]
      constructor
      · intro hfalse
        exact absurd hfalse (by simp)
      · intro hall
        exact absurd (by simpa using hall 0 (by omega)) hs
termination_by payload.length
decreasing_by
  simp only [List.length_drop, MAX_APDU_LEN] at h ⊢
  omega

/-- A successful exchange sent the full frame sequence. -/
theorem sendRun_complete (device : Nat → List Nat) (k ins p1 p2 : Nat) (payload : List Nat)
    (hok : (sendToDeviceRun device k ins p1 p2 payload).2.isOk = true) :
    (sendToDeviceRun device k ins p1 p2 payload).1 = chunkFrames ins p1 p2 payload := by
  by_cases h : MAX_APDU_LEN < payload.length
  · by_cases hs : statusOf (device k) = STATUS_OK
    · rw [sendRun_pos_ok device k ins p1 p2 payload h hs] at hok ⊢
      rw [chunkFrames_pos ins p1 p2 payload h]
      simp only [List.cons.injEq, true_and]
      exact sendRun_complete device (k + 1) ins (p1 + 1) p2 (payload.drop MAX_APDU_LEN)
        (by simpa using hok)
    · rw [sendRun_pos_bad device k ins p1 p2 payload h hs] at hok
      simp [Except.isOk, Except.toBool] at hok
  · by_cases hs : statusOf (device k) = STATUS_OK
    · rw [sendRun_fin_ok device k ins p1 p2 payload h hs, chunkFrames_fin ins p1 p2 payload h]
    · rw [sendRun_fin_bad device k ins p1 p2 payload h hs] at hok
      simp [Except.isOk, Except.toBool] at hok
termination_by payload.length
decreasing_by
  simp only [List.length_drop, MAX_APDU_LEN] at h ⊢
  omega

/-- A failed exchange returns (only) the error carrying the non-success
status of the last frame that was sent. -/
theorem sendRun_error (device : Nat → List Nat) (k ins p1 p2 : Nat) (payload : List Nat)
    (hbad : (sendToDeviceRun device k ins p1 p2 payload).2.isOk = false) :
    (sendToDeviceRun device k ins p1 p2 payload).2 =
      .error (.deviceError (statusOf (device (k + ((sendToDeviceRun device k ins p1 p2 payload).1.length - 1))))) ∧
    statusOf (device (k + ((sendToDeviceRun device k ins p1 p2 payload).1.length - 1))) ≠ STATUS_OK := by
  by_cases h : MAX_APDU_LEN < payload.length
  · by_cases hs : statusOf (device k) = STATUS_OK
    · rw [sendRun_pos_ok device k ins p1 p2 payload h hs] at hbad ⊢
      have ih := sendRun_error device (k + 1) ins (p1 + 1) p2 (payload.drop MAX_APDU_LEN)
        (by simpa using hbad)
      have hpos : 0 < (sendToDeviceRun device (k + 1) ins (p1 + 1) p2 (payload.drop MAX_APDU_LEN)).1.length :=
        List.length_pos.mpr (sendRun_sent_ne_nil device (k + 1) ins (p1 + 1) p2 (payload.drop MAX_APDU_LEN))
      have hk : k + ((⟨LEDGER_CLA, ins, p1, P2_MORE, payload.take MAX_APDU_LEN⟩ ::
          (sendToDeviceRun device (k + 1) ins (p1 + 1) p2 (payload.drop MAX_APDU_LEN)).1).length - 1) =
          k + 1 + ((sendToDeviceRun device (k + 1) ins (p1 + 1) p2 (payload.drop MAX_APDU_LEN)).1.length - 1) := by
        simp only [List.length_cons]
        omega
      rw [hk]
      exact ih
    · rw [sendRun_pos_bad device k ins p1 p2 payload h hs]
      simpa using hs
  · by_cases hs : statusOf (device k) = STATUS_OK
    · rw [sendRun_fin_ok device k ins p1 p2 payload h hs] at hbad
      simp [Except.isOk, Except.toBool] at hbad
    · rw [sendRun_fin_bad device k ins p1 p2 payload h hs]
      simpa using hs
termination_by payload.length
decreasing_by
  simp only [List.length_drop, MAX_APDU_LEN] at h ⊢
  omega

/-- C6: in every exchange the reply status of each frame is checked before
the next frame is sent: every sent frame followed by another frame had a
success status, the sent frames are an initial segment of the full frame
sequence, a non-success status aborts the exchange at once with an error
carrying that status (no partial result is returned), and the exchange
succeeds exactly when every frame of the sequence got a success status. -/
theorem claim_C6_abort_on_failure (device : Nat → List Nat) (k ins p1 p2 : Nat)
    (payload : List Nat) :
    (sendToDeviceRun device k ins p1 p2 payload).1 =
      (chunkFrames ins p1 p2 payload).take (sendToDeviceRun device k ins p1 p2 payload).1.length ∧
    (sendToDeviceRun device k ins p1 p2 payload).1 ≠ [] ∧
    (∀ i, i + 1 < (sendToDeviceRun device k ins p1 p2 payload).1.length →
      statusOf (device (k + i)) = STATUS_OK) ∧
    ((sendToDeviceRun device k ins p1 p2 payload).2.isOk = true ↔
      ∀ i, i < (chunkFrames ins p1 p2 payload).length → statusOf (device (k + i)) = STATUS_OK) ∧
    ((sendToDeviceRun device k ins p1 p2 payload).2.isOk = true →
      (sendToDeviceRun device k ins p1 p2 payload).1 = chunkFrames ins p1 p2 payload) ∧
    ((sendToDeviceRun device k ins p1 p2 payload).2.isOk = false →
      (sendToDeviceRun device k ins p1 p2 payload).2 =
        .error (.deviceError (statusOf (device
          (k + ((sendToDeviceRun device k ins p1 p2 payload).1.length - 1))))) ∧
      statusOf (device (k + ((sendToDeviceRun device k ins p1 p2 payload).1.length - 1))) ≠ STATUS_OK) :=
  ⟨sendRun_sent_take device k ins p1 p2 payload,
   sendRun_sent_ne_nil device k ins p1 p2 payload,
   sendRun_statuses device k ins p1 p2 payload,
   sendRun_isOk_iff device k ins p1 p2 payload,
   fun hok => sendRun_complete device k ins p1 p2 payload hok,
   fun hbad => sendRun_error device k ins p1 p2 payload hbad⟩

/-- Witness for C6: on a 600-byte payload (3 frames) with an injected
non-success status (0x6985) on the second frame, exactly 2 frames are sent
and the operation returns that error. -/
theorem claim_C6_witness :
    (sendToDeviceRun (fun i => if i = 1 then [0x69, 0x85] else [0x90, 0x00]) 0 6 1 0
        (List.replicate 600 3)).1.length = 2 ∧
    (sendToDeviceRun (fun i => if i = 1 then [0x69, 0x85] else [0x90, 0x00]) 0 6 1 0
        (List.replicate 600 3)).2 = .error (.deviceError 0x6985) := by
  have e1 := sendRun_pos_ok (fun i => if i = 1 then [0x69, 0x85] else [0x90, 0x00]) 0 6 1 0
    (List.replicate 600 3)
    (by rw [List.length_replicate]; norm_num [MAX_APDU_LEN]) (by decide)
  have e2 := sendRun_pos_bad (fun i => if i = 1 then [0x69, 0x85] else [0x90, 0x00]) 1 6 2 0
    ((List.replicate 600 3).drop MAX_APDU_LEN)
    (by rw [List.length_drop, List.length_replicate]; norm_num [MAX_APDU_LEN]) (by decide)
  have hlen : (sendToDeviceRun (fun i => if i = 1 then [0x69, 0x85] else [0x90, 0x00]) 0 6 1 0
      (List.replicate 600 3)).1.length = 2 := by
    rw [e1]
    simp only [List.length_cons]
    rw [e2]
    rfl
  have hbad : (sendToDeviceRun (fun i => if i = 1 then [0x69, 0x85] else [0x90, 0x00]) 0 6 1 0
      (List.replicate 600 3)).2.isOk = false := by
    rw [e1]
    simp only
    rw [e2]
    rfl
  have herr := (claim_C6_abort_on_failure (fun i => if i = 1 then [0x69, 0x85] else [0x90, 0x00])
    0 6 1 0 (List.replicate 600 3)).2.2.2.2.2 hbad
  refine ⟨hlen, ?_⟩
  rw [herr.1, hlen]
  have hst : statusOf (if (0 + (2 - 1) : Nat) = 1 then [0x69, 0x85] else [0x90, 0x00]) = 0x6985 := by
    decide
  rw [hst]

/- Status-word handling (claim C5). -/

/-- C5: for every raw reply `body ++ [s1, s2]` (so of length ≥ 2), the
status is the last two bytes read big-endian, the body the operation
consumes is exactly the first `length - 2` bytes, and the status check
fails — with the status code in the error — precisely when the status is
not 0x9000. -/
theorem claim_C5_status_handling (body : List Nat) (s1 s2 : Nat) :
    statusOf (body ++ [s1, s2]) = 256 * s1 + s2 ∧
    stripStatus (body ++ [s1, s2]) = body ∧
    (throwOnFailure (body ++ [s1, s2]) = .ok () ↔ 256 * s1 + s2 = STATUS_OK) ∧
    (256 * s1 + s2 ≠ STATUS_OK →
      throwOnFailure (body ++ [s1, s2]) = .error (.deviceError (256 * s1 + s2))) := by
  have hlen : (body ++ [s1, s2]).length = body.length + 2 := by
    simp
  have hst : statusOf (body ++ [s1, s2]) = 256 * s1 + s2 := by
    unfold statusOf
    rw [hlen]
    have h2 : body.length + 2 - 2 = body.length := by omega
    have h1 : body.length + 2 - 1 = body.length + 1 := by omega
    rw [h2, h1]
    rw [List.getD_append_right body [s1, s2] 0 body.length (le_refl _)]
    rw [List.getD_append_right body [s1, s2] 0 (body.length + 1) (by omega)]
    have e2 : body.length - body.length = 0 := by omega
    have e1 : body.length + 1 - body.length = 1 := by omega
    rw [e2, e1]
    simp [List.getD]
    ring
  have hstrip : stripStatus (body ++ [s1, s2]) = body := by
    unfold stripStatus
    rw [hlen]
    have h2 : body.length + 2 - 2 = body.length := by omega
    rw [h2, List.take_left]
  refine ⟨hst, hstrip, ?_, ?_⟩
  · unfold throwOnFailure
    rw [hst]
    by_cases hok : 256 * s1 + s2 = STATUS_OK
    · simp [hok]
    · simp [hok]
  · intro hne
    unfold throwOnFailure
    rw [hst, if_neg hne]

/-- Witness for C5: a non-success status (0x6985) on a concrete reply is
rejected with that status code in the error. -/
theorem claim_C5_witness :
    throwOnFailure ([9] ++ [0x69, 0x85]) = .error (.deviceError 0x6985) :=
  (claim_C5_status_handling [9] 0x69 0x85).2.2.2 (by decide)

/- Address derivation (claims C7 and C10). -/

/-- The streaming hash calls of `publicKeyToAddress` amount to hashing the
key bytes followed by the zero byte. -/
theorem publicKeyToAddress_eq (pubKey : List Nat) :
    publicKeyToAddress pubKey = sha3_256 (pubKey ++ [0]) := by
  simp [publicKeyToAddress, sha3Digest, sha3Update, sha3Create]

/-- C7: the derived address is the SHA3-256 digest of exactly the
public-key bytes followed by one zero domain-separation byte, and the
derivation is deterministic (immediate here, since the embedded
derivation is a pure function). -/
theorem claim_C7_address_derivation (pubKey : List Nat) :
    publicKeyToAddress pubKey = sha3_256 (pubKey ++ [0]) ∧
    (∀ pk2, pubKey = pk2 → publicKeyToAddress pubKey = publicKeyToAddress pk2) := by
  refine ⟨publicKeyToAddress_eq pubKey, ?_⟩
  intro pk2 h
  rw [h]

/-- Witness for C7 at a concrete one-byte key. -/
theorem claim_C7_witness :
    publicKeyToAddress [5] = sha3_256 ([5] ++ [0]) ∧
    publicKeyToAddress [5] = publicKeyToAddress [5] :=
  ⟨(claim_C7_address_derivation [5]).1, (claim_C7_address_derivation [5]).2 [5] rfl⟩

/-- The digest always has exactly 32 bytes. -/
theorem sha3_256_length (m : List Nat) : (sha3_256 m).length = 32 := rfl

/-- Every digest byte is below 256. -/
theorem sha3_256_bytes_lt (m : List Nat) : ∀ b ∈ sha3_256 m, b < 256 := by
  intro b hb
  simp only [sha3_256, stateBytes32, List.mem_flatten, List.mem_map, List.mem_range] at hb
  obtain ⟨l, ⟨i, -, hl⟩, hbl⟩ := hb
  rw [← hl] at hbl
  simp only [List.mem_map, List.mem_range] at hbl
  obtain ⟨j, -, hj⟩ := hbl
  rw [← hj]
  exact Nat.mod_lt _ (by norm_num)

/-- Every hex digit is in the hex alphabet. -/
theorem hexDigit_mem (n : Nat) : hexDigit n ∈ hexAlphabet := by
  unfold hexDigit List.getD
  cases h : hexAlphabet.get? n with
  | none => simpa using (by decide : ('0' : Char) ∈ hexAlphabet)
  | some c =>
      have hc := List.get?_mem h
      simpa using hc

/-- Hex rendering yields two characters per byte. -/
theorem hexChars_length (bs : List Nat) : (hexChars bs).length = 2 * bs.length := by
  induction bs with
  | nil => rfl
  | cons b rest ih =>
      simp only [hexChars, List.map_cons, List.flatten_cons, List.length_append,
        List.length_cons] at ih ⊢
      simp [byteHex] at ih ⊢
      omega

/-- Every character of a hex rendering is a hex digit. -/
theorem hexChars_mem (bs : List Nat) : ∀ c ∈ hexChars bs, c ∈ hexAlphabet := by
  intro c hc
  simp only [hexChars, List.mem_flatten, List.mem_map] at hc
  obtain ⟨l, ⟨b, -, hbl⟩, hcl⟩ := hc
  rw [← hbl] at hcl
  simp only [byteHex, List.mem_cons, List.mem_singleton] at hcl
  rcases hcl with h | h | h
  · rw [h]; exact hexDigit_mem _
  · rw [h]; exact hexDigit_mem _
  · simp at h

/-- C10: every successful `getAddress` reply yields an address string that
is `0x` followed by exactly 64 hex characters, independent of the length
of the public key extracted from the body. -/
theorem claim_C10_address_format (reply : List Nat) (h : statusOf reply = STATUS_OK) :
    ∃ ad, getAddressFromReply reply = .ok ad ∧
      ad.address.data.length = 66 ∧
      ad.address.data.take 2 = ['0', 'x'] ∧
      ∀ c ∈ ad.address.data.drop 2, c ∈ hexAlphabet := by
  refine ⟨⟨(parseGetAddress (stripStatus reply)).1, (parseGetAddress (stripStatus reply)).2,
    "0x" ++ hexString (publicKeyToAddress (parseGetAddress (stripStatus reply)).1)⟩, ?_, ?_, ?_, ?_⟩
  · unfold getAddressFromReply throwOnFailure
    rw [if_pos h]
  · rw [String.data_append]
    simp only [List.length_append]
    have hd : (hexString (publicKeyToAddress (parseGetAddress (stripStatus reply)).1)).data =
        hexChars (publicKeyToAddress (parseGetAddress (stripStatus reply)).1) := rfl
    rw [hd, hexChars_length, publicKeyToAddress_eq, sha3_256_length]
    rfl
  · rw [String.data_append]
    rfl
  · rw [String.data_append]
    intro c hc
    have hd : ("0x".data).length = 2 := rfl
    rw [← hd, List.drop_left] at hc
    have he : (hexString (publicKeyToAddress (parseGetAddress (stripStatus reply)).1)).data =
        hexChars (publicKeyToAddress (parseGetAddress (stripStatus reply)).1) := rfl
    rw [he] at hc
    exact hexChars_mem _ c hc

/-- Witness for C10: a success reply with empty body still yields a
66-character `0x`-prefixed hex address. -/
theorem claim_C10_witness :
    ∃ ad, getAddressFromReply [0x90, 0x00] = .ok ad ∧
      ad.address.data.length = 66 ∧
      ad.address.data.take 2 = ['0', 'x'] ∧
      ∀ c ∈ ad.address.data.drop 2, c ∈ hexAlphabet :=
  claim_C10_address_format [0x90, 0x00] (by decide)

/- Path serialization layout (claim C8). -/

/-- Four bytes per serialized index. -/
theorem u32be_flatten_length (path : List Nat) :
    ((path.map u32be).flatten).length = 4 * path.length := by
  induction path with
  | nil => rfl
  | cons x xs ih =>
      simp only [List.map_cons, List.flatten_cons, List.length_append, ih, List.length_cons]
      simp [u32be]
      ring

/-- The i-th serialized index occupies bytes `[4i, 4i+4)` of the
concatenation. -/
theorem u32be_flatten_slice (path : List Nat) (i : Nat) (hi : i < path.length) :
    (((path.map u32be).flatten).drop (4 * i)).take 4 = u32be (path.getD i 0) := by
  induction path generalizing i with
  | nil => simp at hi
  | cons x xs ih =>
      match i with
      | 0 =>
          simp only [List.map_cons, List.flatten_cons, Nat.mul_zero, List.drop_zero]
          rw [List.take_left' (by simp [u32be])]
          rfl
      | j + 1 =>
          have hj : j < xs.length := by
            simp only [List.length_cons] at hi
            omega
          have ihj := ih j hj
          simp only [List.map_cons, List.flatten_cons]
          have h4 : 4 * (j + 1) = 4 + 4 * j := by ring
          rw [h4, ← List.drop_drop]
          rw [List.drop_left' (by simp [u32be] : (u32be x).length = 4)]
          rw [ihj]
          rfl

/-- C8: for every path of at most 255 elements (each a 32-bit value),
serialization succeeds with a buffer of length `1 + 4 * n` whose first
byte is the element count and whose i-th 4-byte group is the i-th index
most-significant-byte first; a path of more than 255 elements fails with
the encoding error. -/
theorem claim_C8_serializePath (path : List Nat) :
    (path.length ≤ 255 → (∀ x ∈ path, x < 2 ^ 32) →
      serializePath path = .ok ([path.length] ++ (path.map u32be).flatten) ∧
      ([path.length] ++ (path.map u32be).flatten).length = 1 + 4 * path.length ∧
      ([path.length] ++ (path.map u32be).flatten).getD 0 0 = path.length ∧
      (∀ i, i < path.length →
        ((([path.length] ++ (path.map u32be).flatten).drop (1 + 4 * i)).take 4 =
          u32be (path.getD i 0)))) ∧
    (255 < path.length → serializePath path = .error .encodingError) := by
  constructor
  · intro hlen hvals
    have hnot : ¬ 255 < path.length := by omega
    have hany : path.any (fun n => 2 ^ 32 ≤ n) = false := by
      simp only [List.any_eq_false, decide_eq_true_eq]
      intro x hx
      have := hvals x hx
      omega
    refine ⟨?_, ?_, rfl, ?_⟩
    · unfold serializePath
      rw [if_neg hnot, if_neg (show ¬ (path.any (fun n => 2 ^ 32 ≤ n) = true) by
        simp only [hany]; exact Bool.false_ne_true)]
    · simp only [List.length_append, List.length_cons, List.length_nil, u32be_flatten_length]
    · intro i hi
      have hsing : ([path.length] : List Nat).length = 1 := rfl
      have hsplit : (1 + 4 * i) = ([path.length] : List Nat).length + 4 * i := by
        rw [hsing]
      rw [hsplit, ← List.drop_drop, List.drop_left]
      exact u32be_flatten_slice path i hi
  · intro hgt
    unfold serializePath
    rw [if_pos hgt]

/-- Witness for C8: a concrete hardened index serializes to its count byte
and big-endian bytes, and a 256-element path is rejected. -/
theorem claim_C8_witness :
    serializePath [0x8000002c] = .ok ([1] ++ ([0x8000002c].map u32be).flatten) ∧
    serializePath (List.replicate 256 0) = .error .encodingError := by
  constructor
  · exact ((claim_C8_serializePath [0x8000002c]).1 (by norm_num) (by decide)).1
  · exact (claim_C8_serializePath (List.replicate 256 0)).2
      (by rw [List.length_replicate]; norm_num)

/- Hardened-index promotion (claim C9). -/

/-- Appending the apostrophe marker makes `strEndsWith` with it true. -/
theorem strEndsWith_append_mark (v : String) :
    strEndsWith (v ++ "\x27") "\x27" = true := by
  unfold strEndsWith
  rw [String.data_append]
  have h1 : ("\x27" : String).data = ['\x27'] := rfl
  rw [h1]
  simp only [List.length_append, List.length_cons, List.length_nil, Nat.zero_add,
    Nat.add_sub_cancel]
  rw [List.drop_left]
  rfl

/-- `promote` always yields a component carrying a hardened marker. -/
theorem promote_mark (v : String) :
    strEndsWith (promote v) "\x27" = true ∨ strEndsWith (promote v) "h" = true := by
  unfold promote
  by_cases h : (strEndsWith v "\x27" || strEndsWith v "h") = true
  · rw [if_pos h]
    exact Bool.or_eq_true _ _ |>.mp h
  · rw [if_neg h]
    exact Or.inl (strEndsWith_append_mark v)

/-- A marked component parses to a hardened (high-bit) index. -/
theorem parseComponent_hardened (v : String) (x : Nat)
    (hmark : strEndsWith v "\x27" = true ∨ strEndsWith v "h" = true)
    (h : parseComponent v = some x) : 2 ^ 31 ≤ x := by
  unfold parseComponent at h
  rw [if_pos (Bool.or_eq_true _ _ |>.mpr hmark)] at h
  rcases Option.map_eq_some'.mp h with ⟨n, -, hx⟩
  omega

/-- Inverse of `Option`-valued `mapM`: every output value comes from some
input value. -/
theorem mapM_some_mem {α β : Type} (f : α → Option β) :
    ∀ (l : List α) (ys : List β), l.mapM f = some ys → ∀ y ∈ ys, ∃ a ∈ l, f a = some y := by
  intro l
  induction l with
  | nil =>
      intro ys h y hy
      simp only [List.mapM_nil, pure, Option.some.injEq] at h
      rw [← h] at hy
      simp at hy
  | cons a as ih =>
      intro ys h y hy
      rw [List.mapM_cons] at h
      cases hfa : f a with
      | none => rw [hfa] at h; simp at h
      | some b =>
          rw [hfa] at h
          cases hrest : as.mapM f with
          | none => rw [hrest] at h; simp at h
          | some bs =>
              rw [hrest] at h
              simp at h
              rw [← h] at hy
              rcases List.mem_cons.mp hy with hyb | hybs
              · exact ⟨a, List.mem_cons_self a as, by rw [hfa, hyb]⟩
              · rcases ih bs hrest y hybs with ⟨a', ha', hfa'⟩
                exact ⟨a', List.mem_cons_of_mem a ha', hfa'⟩

/-- Inverting a successful `serializePath`. -/
theorem serializePath_ok (nums buf : List Nat) (h : serializePath nums = .ok buf) :
    buf = [nums.length] ++ (nums.map u32be).flatten ∧ nums.length ≤ 255 ∧
      ∀ x ∈ nums, x < 2 ^ 32 := by
  unfold serializePath at h
  by_cases h1 : 255 < nums.length
  · rw [if_pos h1] at h
    simp at h
  · rw [if_neg h1] at h
    by_cases h2 : (nums.any (fun n => 2 ^ 32 ≤ n)) = true
    · rw [if_pos h2] at h
      simp at h
    · rw [if_neg h2] at h
      simp only [Except.ok.injEq] at h
      refine ⟨h.symm, by omega, ?_⟩
      intro x hx
      simp only [List.any_eq_true, decide_eq_true_eq, not_exists, not_and, not_le] at h2
      exact h2 x hx

/-- A component with the marker appended is never the root marker `m`. -/
theorem append_mark_ne_m (p : String) : p ++ "\x27" ≠ "m" := by
  intro h
  have hd : (p ++ "\x27").data = ("m" : String).data := by rw [h]
  rw [String.data_append] at hd
  have h1 : ("\x27" : String).data = ['\x27'] := rfl
  have h2 : ("m" : String).data = ['m'] := rfl
  rw [h1, h2] at hd
  cases hp : p.data with
  | nil =>
      rw [hp] at hd
      simp at hd
  | cons c cs =>
      rw [hp] at hd
      have := congrArg List.length hd
      simp at this

/-- An unmarked component is promoted by appending the marker. -/
theorem promote_plain (p : String) (h1 : strEndsWith p "\x27" = false)
    (h2 : strEndsWith p "h" = false) : promote p = p ++ "\x27" := by
  unfold promote
  rw [if_neg (by simp [h1, h2])]

/-- A marked component is left untouched by promotion. -/
theorem promote_marked (v : String) : promote (v ++ "\x27") = v ++ "\x27" := by
  unfold promote
  rw [if_pos (by simp [strEndsWith_append_mark v])]

/-- Writing a path with plain components or with marked components makes
no difference to the component pipeline. -/
theorem processed_parts_eq (parts : List String)
    (hplain : ∀ p ∈ parts, strEndsWith p "\x27" = false ∧ strEndsWith p "h" = false ∧ p ≠ "m") :
    ((parts.filter (fun v => v ≠ "m")).map promote) =
      (((parts.map (fun p => p ++ "\x27")).filter (fun v => v ≠ "m")).map promote) := by
  induction parts with
  | nil => rfl
  | cons p ps ih =>
      have hp := hplain p (List.mem_cons_self p ps)
      have hps : ∀ q ∈ ps, strEndsWith q "\x27" = false ∧ strEndsWith q "h" = false ∧ q ≠ "m" :=
        fun q hq => hplain q (List.mem_cons_of_mem p hq)
      simp only [List.map_cons, List.filter_cons]
      rw [if_pos (by simp [hp.2.2]), if_pos (by simp [append_mark_ne_m p])]
      simp only [List.map_cons]
      rw [promote_plain p hp.1 hp.2.1, promote_marked p, ih hps]

/-- C9: (a) every index group of a successfully encoded path buffer is the
big-endian encoding of a hardened (high-bit-set) 32-bit value, whose
leading byte is therefore at least 0x80, even when the caller supplied
plain components; (b) a path written with plain components encodes to the
same bytes as the same path written with hardened markers. -/
theorem claim_C9_hardened_promotion :
    (∀ s buf, pathToBuffer s = .ok buf → ∀ i, i < buf.getD 0 0 →
      ∃ x, 2 ^ 31 ≤ x ∧ x < 2 ^ 32 ∧ (buf.drop (1 + 4 * i)).take 4 = u32be x ∧
        128 ≤ (u32be x).getD 0 0) ∧
    (∀ parts : List String,
      (∀ p ∈ parts, strEndsWith p "\x27" = false ∧ strEndsWith p "h" = false ∧ p ≠ "m") →
      encodeParts parts = encodeParts (parts.map (fun p => p ++ "\x27"))) := by
  constructor
  · intro s buf hok i hi
    unfold pathToBuffer encodeParts at hok
    cases hm : (((((splitChars '/' s.data).map String.mk).filter (fun v => v ≠ "m")).map promote).mapM
        parseComponent) with
    | none => rw [hm] at hok; simp at hok
    | some nums =>
        rw [hm] at hok
        obtain ⟨hbuf, -, hlt⟩ := serializePath_ok nums buf hok
        have hhard : ∀ x ∈ nums, 2 ^ 31 ≤ x := by
          intro x hx
          obtain ⟨a, ha, hfa⟩ := mapM_some_mem parseComponent _ nums hm x hx
          obtain ⟨v, -, hva⟩ := List.mem_map.mp ha
          rw [← hva] at hfa
          exact parseComponent_hardened (promote v) x (promote_mark v) hfa
        have hilen : i < nums.length := by
          rw [hbuf] at hi
          simpa using hi
        have hmem : nums.getD i 0 ∈ nums := by
          rw [List.getD_eq_getElem nums 0 hilen]
          exact List.getElem_mem hilen
        refine ⟨nums.getD i 0, hhard _ hmem, hlt _ hmem, ?_, ?_⟩
        · rw [hbuf]
          have hsplit : (1 + 4 * i) = ([nums.length] : List Nat).length + 4 * i := rfl
          rw [hsplit, ← List.drop_drop, List.drop_left]
          exact u32be_flatten_slice nums i hilen
        · have h31 := hhard _ hmem
          have h32 := hlt _ hmem
          simp only [u32be, List.getD_cons_zero]
          omega
  · intro parts hplain
    unfold encodeParts
    rw [processed_parts_eq parts hplain]

/-- Witness for C9: the path string `m/44/637` (plain components) encodes
with hardened index groups, and the plain component list `["44", "637"]`
encodes identically to its marked counterpart. -/
theorem claim_C9_witness :
    (∃ x, 2 ^ 31 ≤ x ∧ x < 2 ^ 32 ∧
      (([2, 128, 0, 0, 44, 128, 0, 2, 125] : List Nat).drop (1 + 4 * 0)).take 4 = u32be x ∧
      128 ≤ (u32be x).getD 0 0) ∧
    encodeParts ["44", "637"] = encodeParts (["44", "637"].map (fun p => p ++ "\x27")) := by
  constructor
  · exact (claim_C9_hardened_promotion.1 "m/44/637" [2, 128, 0, 0, 44, 128, 0, 2, 125]
      (by decide) 0 (by decide))
  · exact claim_C9_hardened_promotion.2 ["44", "637"] (by decide)

/- `getAddress` response parsing (claims C1 and C2). -/

/-- In-range nonnegative subarray indices clamp to themselves. -/
theorem jsClamp_int (len : Nat) (i : Int) (h0 : 0 ≤ i) (h : i.toNat ≤ len) :
    jsClamp len (some i) = i.toNat := by
  simp only [jsClamp]
  rw [if_neg (by omega)]
  exact Nat.min_eq_left h

/-- `subarray` with in-range nonnegative bounds is take-then-drop. -/
theorem jsSub_int (b : List Nat) (s e : Int) (hs0 : 0 ≤ s) (hs : s.toNat ≤ b.length)
    (he0 : 0 ≤ e) (he : e.toNat ≤ b.length) :
    jsSub b (some s) (some e) = (b.take e.toNat).drop s.toNat := by
  unfold jsSub
  rw [jsClamp_int b.length s hs0 hs, jsClamp_int b.length e he0 he]

/-- In-range indexing yields the byte. -/
theorem jsIndex_int (b : List Nat) (i : Int) (h0 : 0 ≤ i) (h : i.toNat < b.length) :
    jsIndex b (some i) = some ((b.getD i.toNat 0 : Nat) : Int) := by
  simp only [jsIndex]
  rw [if_pos ⟨h0, h⟩]

/-- The head survives a nonempty `take`. -/
theorem getD_zero_take (l : List Nat) (n : Nat) : (l.take (n + 1)).getD 0 0 = l.getD 0 0 := by
  cases l with
  | nil => rfl
  | cons a as => rfl

/-- C1 (amended): for a response body whose byte 0 is `L1 ≥ 1`, with
`L2 = body[L1+1]` and `L1 + 2 + L2 ≤ body.length`, `getAddress` returns
the `L1 - 1` bytes starting at position 2 as the public key (not the
bytes `[1, L1)`), reads the chain-code length at position `L1 + 1` (not
`L1`), and returns the `L2` bytes from position `L1 + 2` as the chain
code. -/
theorem claim_C1_getAddress_parse (body : List Nat) (L1 L2 : Nat)
    (h0 : body.getD 0 0 = L1) (h1 : 1 ≤ L1) (hcc : body.getD (L1 + 1) 0 = L2)
    (hlen : L1 + 2 + L2 ≤ body.length) :
    parseGetAddress body = ((body.drop 2).take (L1 - 1), (body.drop (L1 + 2)).take L2) := by
  unfold parseGetAddress
  rw [jsSub_int body 0 1 (by omega) (by simp) (by omega) (by simp; omega)]
  have ht0 : (0 : Int).toNat = 0 := rfl
  have ht1 : (1 : Int).toNat = 1 := rfl
  rw [ht0, ht1, List.drop_zero]
  rw [jsIndex_int (body.take 1) 0 (by omega) (by simp; omega)]
  rw [ht0, getD_zero_take body 0, h0]
  simp only [optSub, optAdd]
  have e3 : (2 : Int) + ((L1 : Nat) - 1 : Int) = ((L1 + 1 : Nat) : Int) := by push_cast; omega
  rw [e3]
  rw [jsSub_int body 2 ((L1 + 1 : Nat) : Int) (by omega) (by simp; omega)
    (by omega) (by simp; omega)]
  have ht2 : (2 : Int).toNat = 2 := rfl
  have htn : ∀ n : Nat, ((n : Nat) : Int).toNat = n := fun n => Int.toNat_natCast n
  rw [ht2, htn]
  have e4 : ((L1 + 1 : Nat) : Int) + 1 = ((L1 + 2 : Nat) : Int) := by push_cast; omega
  rw [e4]
  rw [jsSub_int body ((L1 + 1 : Nat) : Int) ((L1 + 2 : Nat) : Int)
    (by omega) (by rw [htn]; omega) (by omega) (by rw [htn]; omega)]
  rw [htn, htn]
  rw [jsIndex_int ((body.take (L1 + 2)).drop (L1 + 1)) 0 (by omega)
    (by simp; omega)]
  rw [ht0]
  have hccv : ((body.take (L1 + 2)).drop (L1 + 1)).getD 0 0 = L2 := by
    rw [List.drop_take (L1 + 2) (L1 + 1) body]
    have e5 : L1 + 2 - (L1 + 1) = 0 + 1 := by omega
    rw [e5, getD_zero_take (body.drop (L1 + 1)) 0]
    rw [List.getD_eq_getElem (body.drop (L1 + 1)) 0 (by simp; omega)]
    rw [List.getElem_drop]
    rw [← List.getD_eq_getElem body 0 (by omega)]
    simpa using hcc
  rw [hccv]
  simp only [optAdd]
  have e6 : ((L1 + 2 : Nat) : Int) + ((L2 : Nat) : Int) = ((L1 + 2 + L2 : Nat) : Int) := by
    push_cast; omega
  rw [e6]
  rw [jsSub_int body ((L1 + 2 : Nat) : Int) ((L1 + 2 + L2 : Nat) : Int)
    (by omega) (by rw [htn]; omega) (by omega) (by rw [htn]; omega)]
  rw [htn, htn]
  rw [List.drop_take (L1 + 1) 2 body, List.drop_take (L1 + 2 + L2) (L1 + 2) body]
  have e7 : L1 + 1 - 2 = L1 - 1 := by omega
  have e8 : L1 + 2 + L2 - (L1 + 2) = L2 := by omega
  rw [e7, e8]

/-- Counterexample to C1 as stated: for the body `[3, 10, 20, 2, 40, 50, 99]`
(so `L1 = 3`), the claim predicts the returned public key is bytes
`[1, 3)` of the body, i.e. `[10, 20]`, but the code returns bytes
`[2, 4)`, i.e. `[20, 2]`. -/
theorem claim_C1_counterexample :
    (parseGetAddress [3, 10, 20, 2, 40, 50, 99]).1 = [20, 2] ∧
    (parseGetAddress [3, 10, 20, 2, 40, 50, 99]).1 ≠ [10, 20] := by
  constructor
  · decide
  · decide

/-- Witness for the amended C1 on a well-formed body
`[3, 9, 11, 22, 2, 33, 44]`: key bytes `[11, 22]` (positions 2..3), chain
code `[33, 44]` (positions 5..6). -/
theorem claim_C1_witness :
    parseGetAddress [3, 9, 11, 22, 2, 33, 44] =
      (([3, 9, 11, 22, 2, 33, 44].drop 2).take 2, ([3, 9, 11, 22, 2, 33, 44].drop 5).take 2) :=
  claim_C1_getAddress_parse [3, 9, 11, 22, 2, 33, 44] 3 2 (by decide) (by decide)
    (by decide) (by decide)

/- No bounds checks (claim C2). -/

/-- Nonnegative subarray indices clamp to `min` with the length. -/
theorem jsClamp_nonneg (len : Nat) (i : Int) (h0 : 0 ≤ i) :
    jsClamp len (some i) = min i.toNat len := by
  simp only [jsClamp]
  rw [if_neg (by omega)]

/-- C2 (amended): the client has no `ProtocolError` and performs no bounds
checks: every reply with a success status makes `getAddress` return a
result (sub-fields silently clamped by `subarray`), and the final
`signTransaction` parse always returns the declared-length signature
clamped to the available bytes, never an error. -/
theorem claim_C2_no_bounds_failure (reply : List Nat) (h : statusOf reply = STATUS_OK) :
    (getAddressFromReply reply).isOk = true ∧
    ∀ body : List Nat, parseSignature body = (body.drop 1).take (body.getD 0 0) := by
  constructor
  · unfold getAddressFromReply throwOnFailure
    rw [if_pos h]
    rfl
  · intro body
    unfold parseSignature
    cases body with
    | nil => decide
    | cons b rest =>
        rw [jsIndex_int (b :: rest) 0 (by omega) (by simp)]
        have ht0 : (0 : Int).toNat = 0 := rfl
        have ht1 : (1 : Int).toNat = 1 := rfl
        rw [ht0]
        have hgd : ((b :: rest).getD 0 0) = b := rfl
        rw [hgd]
        simp only [optAdd]
        have e1 : (1 : Int) + ((b : Nat) : Int) = ((1 + b : Nat) : Int) := by push_cast; ring
        rw [e1]
        by_cases hb : 1 + b ≤ rest.length + 1
        · rw [jsSub_int (b :: rest) 1 ((1 + b : Nat) : Int) (by omega) (by simp)
            (by omega) (by rw [Int.toNat_natCast]; simpa using hb)]
          rw [ht1, Int.toNat_natCast]
          rw [List.drop_take (1 + b) 1 (b :: rest)]
          have e2 : 1 + b - 1 = b := by omega
          rw [e2]
        · unfold jsSub
          rw [jsClamp_nonneg _ _ (by omega), jsClamp_nonneg _ _ (by omega), ht1,
            Int.toNat_natCast]
          have hm1 : min 1 (b :: rest).length = 1 :=
            Nat.min_eq_left (by simp)
          have hm2 : min (1 + b) (b :: rest).length = (b :: rest).length :=
            Nat.min_eq_right (by simp; omega)
          rw [hm1, hm2, List.take_length]
          have hd1 : (b :: rest).drop 1 = rest := rfl
          rw [hd1]
          rw [List.take_of_length_le (by simp at hb ⊢; omega)]

/-- Counterexample to C2 as stated: a success reply whose body is `[200]`
declares a 199-byte key and overruns the buffer, yet `getAddress` returns
a result rather than failing; likewise the final `signTransaction` body
`[5]` declares a 5-byte signature with no bytes left, and the parse
returns the empty signature rather than failing. -/
theorem claim_C2_counterexample :
    (getAddressFromReply [200, 0x90, 0x00]).isOk = true ∧ parseSignature [5] = [] := by
  constructor
  · decide
  · decide

/-- Witness for the amended C2 at the same overrunning inputs. -/
theorem claim_C2_witness :
    (getAddressFromReply [200, 0x90, 0x00]).isOk = true ∧
    parseSignature [5] = ([5].drop 1).take 5 :=
  ⟨(claim_C2_no_bounds_failure [200, 0x90, 0x00] (by decide)).1,
   (claim_C2_no_bounds_failure [200, 0x90, 0x00] (by decide)).2 [5]⟩

/- The two-exchange signing protocol (claim C4). -/

/-- A successful exchange returns exactly the stripped body of the reply
to its final frame. -/
theorem sendRun_ok_body (device : Nat → List Nat) (k ins p1 p2 : Nat) (payload : List Nat)
    (hok : (sendToDeviceRun device k ins p1 p2 payload).2.isOk = true) :
    (sendToDeviceRun device k ins p1 p2 payload).2 =
      .ok (stripStatus (device (k + ((sendToDeviceRun device k ins p1 p2 payload).1.length - 1)))) := by
  by_cases h : MAX_APDU_LEN < payload.length
  · by_cases hs : statusOf (device k) = STATUS_OK
    · rw [sendRun_pos_ok device k ins p1 p2 payload h hs] at hok ⊢
      have ih := sendRun_ok_body device (k + 1) ins (p1 + 1) p2 (payload.drop MAX_APDU_LEN)
        (by simpa using hok)
      have hpos : 0 < (sendToDeviceRun device (k + 1) ins (p1 + 1) p2 (payload.drop MAX_APDU_LEN)).1.length :=
        List.length_pos.mpr (sendRun_sent_ne_nil device (k + 1) ins (p1 + 1) p2 (payload.drop MAX_APDU_LEN))
      have hk : k + ((⟨LEDGER_CLA, ins, p1, P2_MORE, payload.take MAX_APDU_LEN⟩ ::
          (sendToDeviceRun device (k + 1) ins (p1 + 1) p2 (payload.drop MAX_APDU_LEN)).1).length - 1) =
          k + 1 + ((sendToDeviceRun device (k + 1) ins (p1 + 1) p2 (payload.drop MAX_APDU_LEN)).1.length - 1) := by
        simp only [List.length_cons]
        omega
      rw [hk]
      exact ih
    · rw [sendRun_pos_bad device k ins p1 p2 payload h hs] at hok
      simp [Except.isOk, Except.toBool] at hok
  · by_cases hs : statusOf (device k) = STATUS_OK
    · rw [sendRun_fin_ok device k ins p1 p2 payload h hs]
      simp
    · rw [sendRun_fin_bad device k ins p1 p2 payload h hs] at hok
      simp [Except.isOk, Except.toBool] at hok
termination_by payload.length
decreasing_by
  simp only [List.length_drop, MAX_APDU_LEN] at h ⊢
  omega

/-- `signTransaction` against an all-success oracle: the frames are the
chunked encoded path (at `p1 = P1_START`, `p2 = P2_MORE`) followed by the
chunked transaction (starting at `p1 = 1`, final `p2 = P2_LAST`), and the
result is the parsed signature of the final reply body only. -/
theorem signRun_frames (device : Nat → List Nat) (path : String) (tx pathBuf : List Nat)
    (hpath : pathToBuffer path = .ok pathBuf)
    (hok : ∀ i, statusOf (device i) = STATUS_OK) :
    (signTransactionRun device path tx).1 =
      chunkFrames INS_SIGN_TX P1_START P2_MORE pathBuf ++
        chunkFrames INS_SIGN_TX 1 P2_LAST tx ∧
    (signTransactionRun device path tx).2 =
      .ok (parseSignature (stripStatus
        (device ((signTransactionRun device path tx).1.length - 1)))) := by
  have h1ok : (sendToDeviceRun device 0 INS_SIGN_TX P1_START P2_MORE pathBuf).2.isOk = true :=
    (sendRun_isOk_iff device 0 INS_SIGN_TX P1_START P2_MORE pathBuf).mpr (fun i _ => hok (0 + i))
  obtain ⟨b1, hb1⟩ : ∃ b, (sendToDeviceRun device 0 INS_SIGN_TX P1_START P2_MORE pathBuf).2 = .ok b := by
    cases hx : (sendToDeviceRun device 0 INS_SIGN_TX P1_START P2_MORE pathBuf).2 with
    | ok b => exact ⟨b, rfl⟩
    | error e => rw [hx] at h1ok; simp [Except.isOk, Except.toBool] at h1ok
  have h2ok : (sendToDeviceRun device
      (sendToDeviceRun device 0 INS_SIGN_TX P1_START P2_MORE pathBuf).1.length
      INS_SIGN_TX 1 P2_LAST tx).2.isOk = true :=
    (sendRun_isOk_iff device _ INS_SIGN_TX 1 P2_LAST tx).mpr (fun i _ => hok _)
  have hbody2 := sendRun_ok_body device
    (sendToDeviceRun device 0 INS_SIGN_TX P1_START P2_MORE pathBuf).1.length
    INS_SIGN_TX 1 P2_LAST tx h2ok
  have hcomp1 := sendRun_complete device 0 INS_SIGN_TX P1_START P2_MORE pathBuf h1ok
  have hcomp2 := sendRun_complete device
    (sendToDeviceRun device 0 INS_SIGN_TX P1_START P2_MORE pathBuf).1.length
    INS_SIGN_TX 1 P2_LAST tx h2ok
  have h2pos : 0 < (sendToDeviceRun device
      (sendToDeviceRun device 0 INS_SIGN_TX P1_START P2_MORE pathBuf).1.length
      INS_SIGN_TX 1 P2_LAST tx).1.length :=
    List.length_pos.mpr (sendRun_sent_ne_nil device _ INS_SIGN_TX 1 P2_LAST tx)
  unfold signTransactionRun
  rw [hpath]
  simp only [hb1, hbody2]
  constructor
  · rw [hcomp2, hcomp1]
  · simp only [List.length_append]
    have hidx : (sendToDeviceRun device 0 INS_SIGN_TX P1_START P2_MORE pathBuf).1.length +
        ((sendToDeviceRun device
          (sendToDeviceRun device 0 INS_SIGN_TX P1_START P2_MORE pathBuf).1.length
          INS_SIGN_TX 1 P2_LAST tx).1.length - 1) =
        (sendToDeviceRun device 0 INS_SIGN_TX P1_START P2_MORE pathBuf).1.length +
          (sendToDeviceRun device
            (sendToDeviceRun device 0 INS_SIGN_TX P1_START P2_MORE pathBuf).1.length
            INS_SIGN_TX 1 P2_LAST tx).1.length - 1 := by
      omega
    rw [hidx]

/-- C4 (amended): every `signTransaction` call performs exactly two
exchanges in order: first the encoded path with `p1 = P1_START` and
`p2 = P2_MORE` — a single frame exactly when the encoded path fits in 255
bytes (paths of more than 63 elements are chunked like any oversized
payload) — whose reply is only status-checked and discarded; then the
transaction bytes framed starting at `p1 = 1`, and only the final reply is
parsed: byte 0 as the signature length followed by the signature bytes,
which are returned. -/
theorem claim_C4_signTransaction_protocol (device : Nat → List Nat) (path : String)
    (tx pathBuf : List Nat) (hpath : pathToBuffer path = .ok pathBuf)
    (hok : ∀ i, statusOf (device i) = STATUS_OK) :
    (signTransactionRun device path tx).1 =
      chunkFrames INS_SIGN_TX P1_START P2_MORE pathBuf ++
        chunkFrames INS_SIGN_TX 1 P2_LAST tx ∧
    (pathBuf.length ≤ 255 →
      chunkFrames INS_SIGN_TX P1_START P2_MORE pathBuf =
        [⟨LEDGER_CLA, INS_SIGN_TX, P1_START, P2_MORE, pathBuf⟩]) ∧
    (signTransactionRun device path tx).2 =
      .ok (parseSignature (stripStatus
        (device ((signTransactionRun device path tx).1.length - 1)))) := by
  obtain ⟨hframes, hres⟩ := signRun_frames device path tx pathBuf hpath hok
  refine ⟨hframes, ?_, hres⟩
  intro hfit
  exact chunkFrames_fin INS_SIGN_TX P1_START P2_MORE pathBuf (by simp [MAX_APDU_LEN]; omega)

set_option maxRecDepth 40000 in
/-- Witness for the amended C4: a concrete one-element path and 3-byte
transaction against a constant success oracle return the parsed 2-byte
signature. -/
theorem claim_C4_witness :
    (signTransactionRun (fun _ => [2, 0xAA, 0xBB, 0x90, 0x00]) "0" [1, 2, 3]).2 =
      .ok (parseSignature (stripStatus ((fun _ => ([2, 0xAA, 0xBB, 0x90, 0x00] : List Nat))
        ((signTransactionRun (fun _ => [2, 0xAA, 0xBB, 0x90, 0x00]) "0" [1, 2, 3]).1.length - 1)))) :=
  (claim_C4_signTransaction_protocol (fun _ => [2, 0xAA, 0xBB, 0x90, 0x00]) "0" [1, 2, 3]
    [1, 128, 0, 0, 0] (by decide)
    (fun _ => (by decide : statusOf ([2, 0xAA, 0xBB, 0x90, 0x00] : List Nat) = STATUS_OK))).2.2

set_option maxRecDepth 200000 in
/-- Counterexample to C4 as stated: for a 64-element path the encoded path
is 257 bytes, so the *first* exchange alone sends two frames; with a
1-byte transaction the call sends 3 frames in total where the claim
(single path frame plus one transaction frame) predicts 2. -/
theorem claim_C4_counterexample :
    (signTransactionRun (fun _ => [0x90, 0x00])
        (String.intercalate "/" (List.replicate 64 "0h")) [7]).1.length = 3 := by
  have hpath : pathToBuffer (String.intercalate "/" (List.replicate 64 "0h")) =
      .ok ([64] ++ ((List.replicate 64 (2 ^ 31 : Nat)).map u32be).flatten) := by decide
  obtain ⟨hframes, -⟩ := signRun_frames (fun _ => [0x90, 0x00])
    (String.intercalate "/" (List.replicate 64 "0h")) [7]
    ([64] ++ ((List.replicate 64 (2 ^ 31 : Nat)).map u32be).flatten) hpath
    (fun _ => (by decide : statusOf ([0x90, 0x00] : List Nat) = STATUS_OK))
  rw [hframes, List.length_append, chunkFrames_length, chunkFrames_length]
  have hlen : (([64] ++ ((List.replicate 64 (2 ^ 31 : Nat)).map u32be).flatten) : List Nat).length = 257 := by
    decide
  rw [hlen]
  norm_num
